import Mathlib

/-!
# Verification of the Even/Odd agent-league core

Shallow embedding of the core components of the league system:

* game rules (`SHARED/league_sdk/game_rules/even_odd.py`),
* the standings aggregator (`agents/league_manager/standings.py`),
* the round-robin scheduler (`agents/league_manager/scheduler.py`),
* the two circuit breakers (`SHARED/league_sdk/circuit_breaker.py` and
  `src/utils/resilience.py`),
* the resilient RPC client (`src/utils/http_client.py` with
  `src/utils/resilience.py`),
* the message envelope codec/validator (`src/protocol/envelope.py`),
* the match orchestrator (`agents/referee_template/game_logic.py`).

Python `int` is modelled as `Int`/`Nat`, `float` timestamps as `Rat`,
strings as Lean `String`, and exceptions as `Except`/`Option` values.
-/

/-! ## Game rules (`SHARED/league_sdk/game_rules/even_odd.py`) -/

/-- The `ParityChoice` literal type: `"even" | "odd"`. -/
inductive Parity where
  | even
  | odd
deriving DecidableEq, Repr

/-- The `GameResult` literal type: `"WIN" | "LOSS" | "DRAW" | "TECHNICAL_LOSS"`. -/
inductive GameResult where
  | WIN
  | LOSS
  | DRAW
  | TECHNICAL_LOSS
deriving DecidableEq, Repr

/-- `EvenOddGame.get_parity`: `"even" if number % 2 == 0 else "odd"`.
Python `%` with positive modulus agrees with `Int.emod`. -/
def get_parity (number : Int) : Parity :=
  if number % 2 = 0 then .even else .odd

/-- The `MatchOutcome` dataclass. -/
structure MatchOutcome where
  drawn_number : Int
  number_parity : Parity
  player_a_choice : Parity
  player_b_choice : Parity
  player_a_result : GameResult
  player_b_result : GameResult
  winner_id : Option String
deriving DecidableEq, Repr

/-- `EvenOddGame.determine_match_outcome`, with the drawn number passed
explicitly (the `drawn_number is None` branch draws a random number and then
proceeds identically). -/
def determine_match_outcome (player_a_id : String) (player_a_choice : Parity)
    (player_b_id : String) (player_b_choice : Parity)
    (drawn_number : Int) : MatchOutcome :=
  let number_parity := get_parity drawn_number
  let a_correct := player_a_choice = number_parity
  let b_correct := player_b_choice = number_parity
  let res : GameResult × GameResult × Option String :=
    if a_correct ∧ b_correct then (.DRAW, .DRAW, none)
    else if a_correct then (.WIN, .LOSS, some player_a_id)
    else if b_correct then (.LOSS, .WIN, some player_b_id)
    else (.DRAW, .DRAW, none)
  { drawn_number := drawn_number
    number_parity := number_parity
    player_a_choice := player_a_choice
    player_b_choice := player_b_choice
    player_a_result := res.1
    player_b_result := res.2.1
    winner_id := res.2.2 }

/-- C2: match settlement is total and symmetric: for every pair of parity
choices and every drawn number exactly one of {A wins, B wins, draw} holds in
the computed outcome; the outcome is a draw (both `DRAW`, no winner) iff both
choices match the drawn number's parity or neither does; and when exactly one
choice matches, that side is `WIN`, the other `LOSS`, and `winner_id` is the
matching side. -/
theorem determine_match_outcome_total_symmetric
    (aId bId : String) (ca cb : Parity) (n : Int) :
    let o := determine_match_outcome aId ca bId cb n
    let p := get_parity n
    (((o.player_a_result = .WIN ∧ o.player_b_result = .LOSS) ∧
        ¬(o.player_a_result = .LOSS ∧ o.player_b_result = .WIN) ∧
        ¬(o.player_a_result = .DRAW ∧ o.player_b_result = .DRAW)) ∨
      ((o.player_a_result = .LOSS ∧ o.player_b_result = .WIN) ∧
        ¬(o.player_a_result = .WIN ∧ o.player_b_result = .LOSS) ∧
        ¬(o.player_a_result = .DRAW ∧ o.player_b_result = .DRAW)) ∨
      ((o.player_a_result = .DRAW ∧ o.player_b_result = .DRAW) ∧
        ¬(o.player_a_result = .WIN ∧ o.player_b_result = .LOSS) ∧
        ¬(o.player_a_result = .LOSS ∧ o.player_b_result = .WIN))) ∧
    ((o.player_a_result = .DRAW ∧ o.player_b_result = .DRAW ∧
        o.winner_id = none) ↔ ((ca = p) ↔ (cb = p))) ∧
    (ca = p → cb ≠ p →
      o.player_a_result = .WIN ∧ o.player_b_result = .LOSS ∧
        o.winner_id = some aId) ∧
    (cb = p → ca ≠ p →
      o.player_a_result = .LOSS ∧ o.player_b_result = .WIN ∧
        o.winner_id = some bId) := by
  rcases hp : get_parity n with _ | _ <;> rcases ca <;> rcases cb <;>
    simp [determine_match_outcome, hp]

/-- Witness for `determine_match_outcome_total_symmetric` at a concrete input:
choices even/odd with drawn number 4 (even), so A wins. -/
theorem determine_match_outcome_total_symmetric_witness :
    (determine_match_outcome "P01" .even "P02" .odd 4).player_a_result
        = .WIN ∧
    (determine_match_outcome "P01" .even "P02" .odd 4).winner_id
        = some "P01" := by
  have h := determine_match_outcome_total_symmetric "P01" "P02"
    Parity.even Parity.odd 4
  have h2 := h.2.2.1 (by decide) (by decide)
  exact ⟨h2.1, h2.2.2⟩

/-! ## Standings (`agents/league_manager/standings.py`)

The manager's `self.standings` dict (keyed by `player_id`, values in insertion
= registration order) is modelled as a list of `PlayerStanding` in
registration order. -/

/-- The `PlayerStanding` dataclass. -/
structure PlayerStanding where
  player_id : String
  display_name : String := ""
  points : Int := 0
  wins : Int := 0
  draws : Int := 0
  losses : Int := 0
  played : Int := 0
deriving DecidableEq, Repr

/-- `self.scoring.get(result, 0)` with
`scoring = {"WIN": 3, "DRAW": 1, "LOSS": 0, "TECHNICAL_LOSS": 0}`. -/
def scoring_get (result : String) : Int :=
  if result = "WIN" then 3
  else if result = "DRAW" then 1
  else if result = "LOSS" then 0
  else if result = "TECHNICAL_LOSS" then 0
  else 0

/-- The body of `StandingsManager.update_result` acting on the located entry:
`played += 1`, `points += scoring.get(result, 0)`, then the win/draw/else
counter bump. -/
def PlayerStanding.apply_result (s : PlayerStanding) (result : String) :
    PlayerStanding :=
  let s := { s with played := s.played + 1,
                    points := s.points + scoring_get result }
  if result = "WIN" then { s with wins := s.wins + 1 }
  else if result = "DRAW" then { s with draws := s.draws + 1 }
  else { s with losses := s.losses + 1 }

/-- `StandingsManager.register_player`: insert a fresh entry if the id is not
yet present (appending preserves dict insertion order). -/
def register_player (m : List PlayerStanding) (player_id display_name : String) :
    List PlayerStanding :=
  if m.any (fun s => s.player_id == player_id) then m
  else m ++ [{ player_id := player_id
               display_name := if display_name = "" then player_id
                               else display_name }]

/-- `StandingsManager.update_result`: register on first sight, then mutate the
entry keyed by `player_id` (ids are unique, so the map touches one entry). -/
def update_result (m : List PlayerStanding) (player_id result : String) :
    List PlayerStanding :=
  (register_player m player_id "").map fun s =>
    if s.player_id == player_id then s.apply_result result else s

/-- Dict lookup `self.standings[player_id]`, as a list search. -/
def find_standing (m : List PlayerStanding) (player_id : String) :
    Option PlayerStanding :=
  m.find? (fun s => s.player_id == player_id)

/-- `a` strictly precedes `b` under the sort key
`lambda x: (-x.points, -x.wins)` of `StandingsManager.get_standings`. -/
def sortsBefore (a b : PlayerStanding) : Bool :=
  b.points < a.points || (a.points == b.points && b.wins < a.wins)

/-- Stable insertion used to model Python's stable `sorted`: `x` is placed
after exactly the already-listed entries that strictly precede it. -/
def insertStanding (x : PlayerStanding) :
    List PlayerStanding → List PlayerStanding
  | [] => [x]
  | y :: ys => if sortsBefore y x then y :: insertStanding x ys
               else x :: y :: ys

/-- `StandingsManager.get_standings`: `sorted(standings.values(),
key=lambda x: (-x.points, -x.wins))`. Python's `sorted` is stable, and a
stable sort by a given key is unique, so this stable insertion sort computes
the same list. -/
def get_standings (m : List PlayerStanding) : List PlayerStanding :=
  m.foldr insertStanding []

/-- Non-strict counterpart of `sortsBefore`: `a` may legally appear before
`b` in the sorted output. -/
def rankLE (a b : PlayerStanding) : Prop :=
  b.points < a.points ∨ (a.points = b.points ∧ b.wins ≤ a.wins)

theorem sortsBefore_false_rankLE {a b : PlayerStanding}
    (h : sortsBefore a b = false) : rankLE b a := by
  simp [sortsBefore] at h
  rcases lt_trichotomy a.points b.points with hlt | heq | hgt
  · exact Or.inl hlt
  · exact Or.inr ⟨heq.symm, h.2 heq⟩
  · exact absurd hgt (not_lt.mpr h.1)

theorem sortsBefore_true_rankLE {a b : PlayerStanding}
    (h : sortsBefore a b = true) : rankLE a b := by
  simp [sortsBefore] at h
  rcases h with h | ⟨h1, h2⟩
  · exact Or.inl h
  · exact Or.inr ⟨h1, le_of_lt h2⟩

theorem rankLE_trans {a b c : PlayerStanding}
    (h1 : rankLE a b) (h2 : rankLE b c) : rankLE a c := by
  rcases h1 with h1 | ⟨h1, h1'⟩ <;> rcases h2 with h2 | ⟨h2, h2'⟩
  · exact Or.inl (h2.trans h1)
  · exact Or.inl (h2 ▸ h1)
  · exact Or.inl (h1 ▸ h2)
  · exact Or.inr ⟨h1.trans h2, h2'.trans h1'⟩

theorem insertStanding_perm (x : PlayerStanding) (l : List PlayerStanding) :
    List.Perm (insertStanding x l) (x :: l) := by
  induction l with
  | nil => simp [insertStanding]
  | cons y ys ih =>
    by_cases h : sortsBefore y x
    · have step : insertStanding x (y :: ys) = y :: insertStanding x ys := by
        simp [insertStanding, h]
      rw [step]
      exact (ih.cons y).trans (List.Perm.swap x y ys)
    · simp [insertStanding, h]

theorem get_standings_perm (m : List PlayerStanding) :
    List.Perm (get_standings m) m := by
  induction m with
  | nil => simp [get_standings]
  | cons x xs ih =>
    exact (insertStanding_perm x (get_standings xs)).trans (ih.cons x)

theorem mem_insertStanding {z x : PlayerStanding} {l : List PlayerStanding}
    (h : z ∈ insertStanding x l) : z = x ∨ z ∈ l := by
  have := (insertStanding_perm x l).mem_iff.mp h
  simpa using this

theorem insertStanding_pairwise (x : PlayerStanding)
    {l : List PlayerStanding} (h : l.Pairwise rankLE) :
    (insertStanding x l).Pairwise rankLE := by
  induction l with
  | nil => simp [insertStanding]
  | cons y ys ih =>
    rcases List.pairwise_cons.mp h with ⟨hy, hys⟩
    by_cases hc : sortsBefore y x
    · have step : insertStanding x (y :: ys) = y :: insertStanding x ys := by
        simp [insertStanding, hc]
      rw [step]
      refine List.pairwise_cons.mpr ⟨?_, ih hys⟩
      intro z hz
      rcases mem_insertStanding hz with rfl | hz
      · exact sortsBefore_true_rankLE hc
      · exact hy z hz
    · have step : insertStanding x (y :: ys) = x :: y :: ys := by
        simp [insertStanding, hc]
      rw [step]
      refine List.pairwise_cons.mpr ⟨?_, h⟩
      intro z hz
      rcases List.mem_cons.mp hz with rfl | hz
      · exact sortsBefore_false_rankLE (Bool.eq_false_iff.mpr hc)
      · exact rankLE_trans
          (sortsBefore_false_rankLE (Bool.eq_false_iff.mpr hc)) (hy z hz)

theorem get_standings_pairwise (m : List PlayerStanding) :
    (get_standings m).Pairwise rankLE := by
  induction m with
  | nil => exact List.Pairwise.nil
  | cons x xs ih => exact insertStanding_pairwise x ih

/-- Filter used to express stability: the entries carrying one fixed sort
key, in encounter order. -/
def keyFilter (p w : Int) (l : List PlayerStanding) : List PlayerStanding :=
  l.filter (fun s => s.points == p && s.wins == w)

theorem keyFilter_cons (p w : Int) (z : PlayerStanding)
    (l : List PlayerStanding) :
    keyFilter p w (z :: l) =
      if z.points == p && z.wins == w then z :: keyFilter p w l
      else keyFilter p w l := by
  simp [keyFilter, List.filter_cons]

theorem keyFilter_insertStanding (x : PlayerStanding)
    (l : List PlayerStanding) (p w : Int) :
    keyFilter p w (insertStanding x l) =
      if x.points == p && x.wins == w then x :: keyFilter p w l
      else keyFilter p w l := by
  induction l with
  | nil =>
    cases hx : (x.points == p && x.wins == w) <;>
      simp [insertStanding, keyFilter, List.filter_cons, hx]
  | cons y ys ih =>
    by_cases hc : sortsBefore y x
    · have step : insertStanding x (y :: ys) = y :: insertStanding x ys := by
        simp [insertStanding, hc]
      rw [step, keyFilter_cons, keyFilter_cons, ih]
      by_cases hx : (x.points == p && x.wins == w) = true
      · have hy : (y.points == p && y.wins == w) = false := by
          simp only [Bool.and_eq_true, beq_iff_eq] at hx
          simp only [sortsBefore, hx.1, hx.2, Bool.or_eq_true,
            decide_eq_true_eq, Bool.and_eq_true, beq_iff_eq] at hc
          rcases hc with h | ⟨h1, h2⟩
          · have hne : y.points ≠ p := by omega
            simp [hne]
          · have hne : y.wins ≠ w := by omega
            simp [h1, hne]
        simp [hx, hy]
      · have hx' : (x.points == p && x.wins == w) = false :=
          Bool.eq_false_iff.mpr hx
        cases hy : (y.points == p && y.wins == w) <;> simp [hx', hy]
    · have step : insertStanding x (y :: ys) = x :: y :: ys := by
        simp [insertStanding, hc]
      rw [step, keyFilter_cons]

theorem keyFilter_get_standings (m : List PlayerStanding) (p w : Int) :
    keyFilter p w (get_standings m) = keyFilter p w m := by
  induction m with
  | nil => rfl
  | cons x xs ih =>
    show keyFilter p w (insertStanding x (get_standings xs)) = _
    rw [keyFilter_insertStanding, keyFilter_cons, ih]

theorem apply_result_player_id (s : PlayerStanding) (r : String) :
    (s.apply_result r).player_id = s.player_id := by
  simp only [PlayerStanding.apply_result]
  split_ifs <;> rfl

theorem find_standing_map_apply (m : List PlayerStanding) (pid r : String) :
    find_standing
        (m.map fun s => if s.player_id == pid then s.apply_result r else s)
        pid
      = (find_standing m pid).map (fun s => s.apply_result r) := by
  induction m with
  | nil => rfl
  | cons s tail ih =>
    cases hp : (s.player_id == pid) with
    | true =>
      have hp' : ((s.apply_result r).player_id == pid) = true := by
        rw [apply_result_player_id]; exact hp
      simp [find_standing, List.find?, hp, hp']
    | false =>
      simpa [find_standing, List.find?, hp] using ih

theorem find_standing_register_isSome (m : List PlayerStanding)
    (pid name : String) :
    (find_standing (register_player m pid name) pid).isSome = true := by
  rw [register_player]
  by_cases h : m.any (fun s => s.player_id == pid)
  · rw [if_pos h]
    rw [List.any_eq_true] at h
    rw [find_standing, List.find?_isSome]
    exact h
  · rw [if_neg h]
    rw [find_standing, List.find?_isSome]
    exact ⟨_, List.mem_append_right m (List.mem_singleton.mpr rfl), by simp⟩

/-- C10: for a result string outside {WIN, DRAW, LOSS, TECHNICAL_LOSS},
`StandingsManager.update_result` does not raise (it is a total function here)
and does not leave the tally unchanged: the player's entry (created on first
sight) gets `played + 1`, `losses + 1`, and `points`, `wins`, `draws`
unchanged (the `dict.get` default adds 0 points), i.e. the unrecognized
outcome is silently tallied as a loss. -/
theorem update_result_unknown_is_loss (m : List PlayerStanding)
    (pid r : String) (hW : r ≠ "WIN") (hD : r ≠ "DRAW") (hL : r ≠ "LOSS")
    (hT : r ≠ "TECHNICAL_LOSS") :
    (find_standing (register_player m pid "") pid).isSome = true ∧
    find_standing (update_result m pid r) pid =
      (find_standing (register_player m pid "") pid).map
        (fun s => { s with played := s.played + 1,
                           losses := s.losses + 1 }) := by
  refine ⟨find_standing_register_isSome m pid "", ?_⟩
  show find_standing ((register_player m pid "").map _) pid = _
  rw [find_standing_map_apply]
  cases h : find_standing (register_player m pid "") pid with
  | none => rfl
  | some s =>
    have hs : s.apply_result r =
        { s with played := s.played + 1, losses := s.losses + 1 } := by
      simp [PlayerStanding.apply_result, scoring_get, hW, hD, hL, hT]
    simp [hs]

/-- Witness for `update_result_unknown_is_loss`: the unrecognized result
string "BANANA" applied to an empty standings table. -/
theorem update_result_unknown_is_loss_witness :
    ("BANANA" : String) ≠ "WIN" ∧
    find_standing (update_result [] "P01" "BANANA") "P01" =
      (find_standing (register_player [] "P01" "") "P01").map
        (fun s => { s with played := s.played + 1,
                           losses := s.losses + 1 }) :=
  ⟨by decide,
    (update_result_unknown_is_loss [] "P01" "BANANA" (by decide) (by decide)
      (by decide) (by decide)).2⟩

/-- C6: points are awarded from the closed table win=3, draw=1, loss=0,
technical-loss=0; and the ranked list computed by `get_standings` is a
permutation of the registered entries, sorted by points descending then wins
descending (`rankLE` pairwise), keeps entries that are equal on both keys in
their original registration order (the per-key filter is unchanged by the
sort), and a player with strictly more points always ranks strictly ahead. -/
theorem standings_points_and_ranking :
    (∀ s : PlayerStanding,
        (s.apply_result "WIN").points = s.points + 3 ∧
        (s.apply_result "DRAW").points = s.points + 1 ∧
        (s.apply_result "LOSS").points = s.points ∧
        (s.apply_result "TECHNICAL_LOSS").points = s.points) ∧
    (∀ m : List PlayerStanding, List.Perm (get_standings m) m) ∧
    (∀ m : List PlayerStanding, (get_standings m).Pairwise rankLE) ∧
    (∀ (m : List PlayerStanding) (p w : Int),
        keyFilter p w (get_standings m) = keyFilter p w m) ∧
    (∀ (m : List PlayerStanding) (i j : Nat)
        (hi : i < (get_standings m).length)
        (hj : j < (get_standings m).length),
        ((get_standings m).get ⟨j, hj⟩).points <
            ((get_standings m).get ⟨i, hi⟩).points →
          i < j) := by
  refine ⟨?_, get_standings_perm, get_standings_pairwise,
    keyFilter_get_standings, ?_⟩
  · intro s
    refine ⟨?_, ?_, ?_, ?_⟩ <;>
      simp [PlayerStanding.apply_result, scoring_get]
  · intro m i j hi hj hpt
    by_contra hij
    push_neg at hij
    rcases Nat.lt_or_ge j i with hji | hji
    · have hpw := (List.pairwise_iff_get.mp (get_standings_pairwise m))
        ⟨j, hj⟩ ⟨i, hi⟩ hji
      rcases hpw with h | ⟨h, _⟩
      · exact absurd hpt (not_lt.mpr (le_of_lt h))
      · exact absurd hpt (not_lt.mpr (le_of_eq h.symm))
    · have : i = j := Nat.le_antisymm hji hij
      subst this
      exact absurd hpt (lt_irrefl _)

/-- Concrete two-entry table used by the ranking witness. -/
def demoStandings : List PlayerStanding :=
  [{ player_id := "P01" }, { player_id := "P02", points := 3, wins := 1 }]

/-- Witness for `standings_points_and_ranking`: in the sorted output of
`demoStandings`, the entry at index 1 has fewer points than the one at index
0, and indeed 0 < 1. -/
theorem standings_points_and_ranking_witness :
    ((get_standings demoStandings).get ⟨1, by decide⟩).points <
      ((get_standings demoStandings).get ⟨0, by decide⟩).points ∧
    (0 : Nat) < 1 :=
  ⟨by decide,
    standings_points_and_ranking.2.2.2.2 demoStandings 0 1 (by decide)
      (by decide) (by decide)⟩

/-! ## Round-robin scheduler (`agents/league_manager/scheduler.py`)

A match dict carries `player_a`/`player_b` (the pair) plus identifier strings
and a referee slot; only the pair matters to scheduling, so a match is
modelled as the ordered pair `(player_a, player_b)`. -/

section Scheduler

variable {α : Type} [DecidableEq α]

/-- `itertools.combinations(player_ids, 2)` in its lexicographic emission
order. -/
def combinations2 : List α → List (α × α)
  | [] => []
  | x :: xs => xs.map (fun y => (x, y)) ++ combinations2 xs

/-- One pass of the round-building loop: iterate over a snapshot of
`remaining`, take a pair whenever neither player is in `players_in_round`
yet, and keep the rest (selected pairs are removed from `remaining`).
Returns `(round_matches, new_remaining)`. -/
def selectRound : List (α × α) → List α → List (α × α) × List (α × α)
  | [], _ => ([], [])
  | p :: ps, used =>
    if p.1 ∉ used ∧ p.2 ∉ used then
      let r := selectRound ps (p.1 :: p.2 :: used)
      (p :: r.1, r.2)
    else
      let r := selectRound ps used
      (r.1, p :: r.2)

/-- The `while remaining:` loop of `generate_schedule`. Fuel bounds the
number of rounds; since `players_in_round` starts empty, each pass selects at
least the first remaining pair (so the `if round_matches:` guard in the
source is always taken and one unit of fuel per remaining pair suffices). -/
def generateRounds : Nat → List (α × α) → List (List (α × α))
  | 0, _ => []
  | _ + 1, [] => []
  | fuel + 1, p :: ps =>
    let r := selectRound (p :: ps) []
    r.1 :: generateRounds fuel r.2

/-- `Scheduler.generate_schedule`: all pairings distributed into rounds. -/
def generate_schedule (player_ids : List α) : List (List (α × α)) :=
  if player_ids.length < 2 then []
  else generateRounds (combinations2 player_ids).length
        (combinations2 player_ids)

/-- All player slots of a round, in order. -/
def roundPlayers (r : List (α × α)) : List α :=
  r.flatMap fun m => [m.1, m.2]

theorem selectRound_perm (l : List (α × α)) (used : List α) :
    List.Perm ((selectRound l used).1 ++ (selectRound l used).2) l := by
  induction l generalizing used with
  | nil => simp [selectRound]
  | cons p ps ih =>
    by_cases h : p.1 ∉ used ∧ p.2 ∉ used
    · simpa [selectRound, h] using (ih (p.1 :: p.2 :: used)).cons p
    · have step : selectRound (p :: ps) used =
          ((selectRound ps used).1, p :: (selectRound ps used).2) := by
        simp [selectRound, h]
      rw [step]
      exact (List.perm_middle).trans ((ih used).cons p)

theorem selectRound_cons_nil (p : α × α) (ps : List (α × α)) :
    selectRound (p :: ps) [] =
      (p :: (selectRound ps [p.1, p.2]).1, (selectRound ps [p.1, p.2]).2) := by
  simp [selectRound]

theorem selectRound_lengths (l : List (α × α)) (used : List α) :
    (selectRound l used).1.length + (selectRound l used).2.length
      = l.length :=
  by simpa using (selectRound_perm l used).length_eq

theorem generateRounds_join_perm (fuel : Nat) (l : List (α × α))
    (hfuel : l.length ≤ fuel) :
    List.Perm (generateRounds fuel l).flatten l := by
  induction fuel generalizing l with
  | zero =>
    have : l = [] := List.length_eq_zero.mp (Nat.le_zero.mp hfuel)
    subst this; simp [generateRounds]
  | succ fuel ih =>
    cases l with
    | nil => simp [generateRounds]
    | cons p ps =>
      have hsel := selectRound_cons_nil p ps
      have hrest : (selectRound (p :: ps) []).2.length ≤ fuel := by
        have h1 := selectRound_lengths (p :: ps) []
        rw [hsel] at h1 ⊢
        simp only [List.length_cons] at h1 hfuel ⊢
        omega
      have hperm := ih _ hrest
      show List.Perm
        ((selectRound (p :: ps) []).1 ::
          generateRounds fuel (selectRound (p :: ps) []).2).flatten (p :: ps)
      rw [List.flatten_cons]
      exact ((hperm.append_left _).trans (selectRound_perm (p :: ps) []))

/-- A match `m` is the unordered pair `{a, b}`. -/
def pairMatch (a b : α) (m : α × α) : Bool :=
  decide (m = (a, b) ∨ m = (b, a))

theorem countP_eq_mem_nodup {l : List α} (hl : l.Nodup) (c : α) :
    l.countP (fun y => decide (y = c)) = if c ∈ l then 1 else 0 := by
  induction l with
  | nil => simp
  | cons z zs ih =>
    rcases List.nodup_cons.mp hl with ⟨hz, hzs⟩
    rw [List.countP_cons]
    by_cases hzc : z = c
    · subst hzc
      simp [hz, ih hzs]
    · have hcz : ¬c = z := fun h => hzc h.symm
      by_cases hcm : c ∈ zs <;>
        simp [hzc, hcz, hcm, ih hzs, List.mem_cons]

theorem combinations2_count (players : List α) (hnd : players.Nodup)
    (a b : α) (hab : a ≠ b) :
    (combinations2 players).countP (pairMatch a b) =
      if a ∈ players ∧ b ∈ players then 1 else 0 := by
  induction players with
  | nil => simp [combinations2]
  | cons x xs ih =>
    rcases List.nodup_cons.mp hnd with ⟨hx, hxs⟩
    have ihx := ih hxs
    rw [combinations2, List.countP_append, List.countP_map]
    by_cases hA : x = a
    · subst hA
      have hxb : x ≠ b := hab
      have hcongr : ∀ y ∈ xs,
          ((pairMatch x b ∘ fun y => (x, y)) y = true ↔
            decide (y = b) = true) := by
        intro y _
        simp [pairMatch, Prod.ext_iff, hxb, Function.comp]
      rw [List.countP_congr hcongr, countP_eq_mem_nodup hxs b, ihx]
      have hax : ¬(x ∈ xs ∧ b ∈ xs) := fun h => hx h.1
      have hbx' : ¬b = x := fun h => hxb h.symm
      have hbx : b ∈ x :: xs ↔ b ∈ xs := by
        simp [List.mem_cons, hbx']
      by_cases hb : b ∈ xs <;>
        simp [hax, hb, hbx, hx, List.mem_cons]
    · by_cases hB : x = b
      · subst hB
        have hxa : ¬x = a := hA
        have hcongr : ∀ y ∈ xs,
            ((pairMatch a x ∘ fun y => (x, y)) y = true ↔
              decide (y = a) = true) := by
          intro y _
          simp [pairMatch, Prod.ext_iff, hxa, Function.comp]
        rw [List.countP_congr hcongr, countP_eq_mem_nodup hxs a, ihx]
        have hbx : ¬(a ∈ xs ∧ x ∈ xs) := fun h => hx h.2
        have hax' : ¬a = x := fun h => hxa h.symm
        have hax : a ∈ x :: xs ↔ a ∈ xs := by
          simp [List.mem_cons, hax']
        by_cases ha : a ∈ xs <;>
          simp [hbx, ha, hax, hx, List.mem_cons]
      · have hzero : xs.countP (pairMatch a b ∘ fun y => (x, y)) = 0 := by
          rw [List.countP_eq_zero]
          intro y _
          simp [pairMatch, Prod.ext_iff, hA, hB, Function.comp]
        rw [hzero, ihx]
        have hax' : ¬a = x := fun h => hA h.symm
        have hbx' : ¬b = x := fun h => hB h.symm
        have hax : a ∈ x :: xs ↔ a ∈ xs := by
          simp [List.mem_cons, hax']
        have hbx : b ∈ x :: xs ↔ b ∈ xs := by
          simp [List.mem_cons, hbx']
        by_cases ha : a ∈ xs <;> by_cases hb : b ∈ xs <;>
          simp [ha, hb, hax, hbx]

theorem combinations2_ne (players : List α) (hnd : players.Nodup) :
    ∀ m ∈ combinations2 players, m.1 ≠ m.2 := by
  induction players with
  | nil => simp [combinations2]
  | cons x xs ih =>
    rcases List.nodup_cons.mp hnd with ⟨hx, hxs⟩
    intro m hm
    rcases List.mem_append.mp hm with hm | hm
    · rcases List.mem_map.mp hm with ⟨y, hy, rfl⟩
      intro h
      have hxy : x = y := h
      cases hxy
      exact hx hy
    · exact ih hxs m hm

theorem selectRound_round_nodup (l : List (α × α))
    (hl : ∀ m ∈ l, m.1 ≠ m.2) (used : List α) :
    (roundPlayers (selectRound l used).1).Nodup ∧
    ∀ x ∈ roundPlayers (selectRound l used).1, x ∉ used := by
  induction l generalizing used with
  | nil => simp [selectRound, roundPlayers]
  | cons p ps ih =>
    have hp : p.1 ≠ p.2 := hl p (List.mem_cons_self p ps)
    have hps : ∀ m ∈ ps, m.1 ≠ m.2 := fun m hm =>
      hl m (List.mem_cons_of_mem _ hm)
    by_cases h : p.1 ∉ used ∧ p.2 ∉ used
    · have step : selectRound (p :: ps) used =
          (p :: (selectRound ps (p.1 :: p.2 :: used)).1,
            (selectRound ps (p.1 :: p.2 :: used)).2) := by
        simp [selectRound, h.1, h.2]
      obtain ⟨hnd1, hnotin1⟩ := ih hps (p.1 :: p.2 :: used)
      have hrp : roundPlayers
          (p :: (selectRound ps (p.1 :: p.2 :: used)).1) =
          p.1 :: p.2 :: roundPlayers (selectRound ps (p.1 :: p.2 :: used)).1 := by
        simp [roundPlayers]
      rw [step]
      constructor
      · rw [hrp]
        refine List.nodup_cons.mpr ⟨?_, List.nodup_cons.mpr ⟨?_, hnd1⟩⟩
        · intro hmem
          rcases List.mem_cons.mp hmem with h12 | hmem
          · exact hp h12
          · exact hnotin1 p.1 hmem (List.mem_cons_self p.1 _)
        · intro hmem
          exact hnotin1 p.2 hmem
            (List.mem_cons_of_mem _ (List.mem_cons_self p.2 used))
      · rw [hrp]
        intro x hx
        rcases List.mem_cons.mp hx with rfl | hx
        · exact h.1
        rcases List.mem_cons.mp hx with rfl | hx
        · exact h.2
        · intro hxu
          exact hnotin1 x hx
            (List.mem_cons_of_mem _ (List.mem_cons_of_mem _ hxu))
    · have step : selectRound (p :: ps) used =
          ((selectRound ps used).1, p :: (selectRound ps used).2) := by
        simp [selectRound, h]
      rw [step]
      exact ih hps used

theorem selectRound_rest_subset (l : List (α × α)) (used : List α) :
    ∀ m ∈ (selectRound l used).2, m ∈ l := by
  intro m hm
  exact (selectRound_perm l used).mem_iff.mp
    (List.mem_append_right _ hm)

theorem generateRounds_rounds_nodup (fuel : Nat) (l : List (α × α))
    (hl : ∀ m ∈ l, m.1 ≠ m.2) :
    ∀ r ∈ generateRounds fuel l, (roundPlayers r).Nodup := by
  induction fuel generalizing l with
  | zero => simp [generateRounds]
  | succ fuel ih =>
    cases l with
    | nil => simp [generateRounds]
    | cons p ps =>
      intro r hr
      rcases List.mem_cons.mp hr with rfl | hr
      · exact (selectRound_round_nodup (p :: ps) hl []).1
      · exact ih (selectRound (p :: ps) []).2
          (fun m hm => hl m (selectRound_rest_subset (p :: ps) [] m hm))
          r hr

/-- Counterexample to C1 as stated: for the six distinct participants
`0..5` (`n = 6` even) the greedy first-fit packing of
`Scheduler.generate_schedule` yields 7 rounds of sizes 3,2,2,2,2,2,2 — not
`n - 1 = 5` rounds of `n / 2 = 3` matches each. -/
theorem generate_schedule_six_players_not_five_rounds :
    (generate_schedule ([0, 1, 2, 3, 4, 5] : List Nat)).length = 7 ∧
    (generate_schedule ([0, 1, 2, 3, 4, 5] : List Nat)).map List.length
      = [3, 2, 2, 2, 2, 2, 2] ∧
    ¬((generate_schedule ([0, 1, 2, 3, 4, 5] : List Nat)).length = 5 ∧
        ∀ r ∈ generate_schedule ([0, 1, 2, 3, 4, 5] : List Nat),
          r.length = 3) := by
  have h7 : (generate_schedule ([0, 1, 2, 3, 4, 5] : List Nat)).length = 7 :=
    by decide
  refine ⟨h7, by decide, ?_⟩
  intro h
  rw [h.1] at h7
  exact absurd h7 (by decide)

/-- C1 (amended): for every list of distinct participant ids,
`generate_schedule` emits every unordered pair of participants exactly once
across the full schedule, and no participant appears twice within any single
round.  (The round-count part of the claim fails: the greedy packing is not
minimal, see `generate_schedule_six_players_not_five_rounds`.) -/
theorem generate_schedule_pairs_once_rounds_disjoint (players : List α)
    (hnd : players.Nodup) :
    (∀ a b, a ∈ players → b ∈ players → a ≠ b →
        (generate_schedule players).flatten.countP (pairMatch a b) = 1) ∧
    (∀ r ∈ generate_schedule players, (roundPlayers r).Nodup) := by
  constructor
  · intro a b ha hb hab
    by_cases hlen : players.length < 2
    · exfalso
      match players, ha, hb with
      | [], ha, _ => exact (List.not_mem_nil a) ha
      | [x], ha, hb =>
        exact hab ((List.mem_singleton.mp ha).trans
          (List.mem_singleton.mp hb).symm)
      | x :: y :: t, _, _ =>
        simp only [List.length_cons] at hlen
        omega
    · rw [generate_schedule, if_neg hlen]
      rw [(generateRounds_join_perm (combinations2 players).length
        (combinations2 players) le_rfl).countP_eq]
      rw [combinations2_count players hnd a b hab, if_pos ⟨ha, hb⟩]
  · intro r hr
    by_cases hlen : players.length < 2
    · rw [generate_schedule, if_pos hlen] at hr
      exact absurd hr (List.not_mem_nil r)
    · rw [generate_schedule, if_neg hlen] at hr
      exact generateRounds_rounds_nodup _ _
        (combinations2_ne players hnd) r hr

/-- Witness for `generate_schedule_pairs_once_rounds_disjoint`: four distinct
participants; the pair {0, 1} appears exactly once in the whole schedule. -/
theorem generate_schedule_pairs_once_witness :
    ([0, 1, 2, 3] : List Nat).Nodup ∧ (0 : Nat) ≠ 1 ∧
    (generate_schedule ([0, 1, 2, 3] : List Nat)).flatten.countP
        (pairMatch 0 1) = 1 :=
  ⟨by decide, by decide,
    (generate_schedule_pairs_once_rounds_disjoint [0, 1, 2, 3]
      (by decide)).1 0 1 (by decide) (by decide) (by decide)⟩

end Scheduler

/-! ## Circuit breaker (`SHARED/league_sdk/circuit_breaker.py`)

Wall-clock instants (`time.time()` floats) are modelled as rationals passed
explicitly to the operations that read the clock.  The `_last_state_change`
field feeds only the monitoring dict `get_status` and is not modelled. -/

/-- The `CircuitState` enum. -/
inductive CircuitState where
  | CLOSED
  | OPEN
  | HALF_OPEN
deriving DecidableEq, Repr

/-- The `CircuitBreaker` dataclass of the SHARED SDK.  `state_raw` is the
`_state` field (the `state` property with its timeout side effect is
`CircuitBreaker.state` below). -/
structure CircuitBreaker where
  failure_threshold : Nat := 5
  success_threshold : Nat := 2
  timeout_seconds : Rat := 60
  state_raw : CircuitState := .CLOSED
  failure_count : Nat := 0
  success_count : Nat := 0
  last_failure_time : Option Rat := none
deriving DecidableEq, Repr

/-- `CircuitBreaker._transition_to`. -/
def CircuitBreaker.transition_to (b : CircuitBreaker)
    (new_state : CircuitState) : CircuitBreaker :=
  let b := { b with state_raw := new_state }
  match new_state with
  | .CLOSED => { b with failure_count := 0, success_count := 0 }
  | .HALF_OPEN => { b with success_count := 0 }
  | .OPEN => b

/-- The `state` property: reading it while OPEN performs the
OPEN → HALF_OPEN timeout transition (`now - last_failure ≥ timeout`).  The
`none` branch cannot arise (OPEN is only entered by `record_failure`, which
stamps the time); Python would raise there, the model returns OPEN. -/
def CircuitBreaker.state (b : CircuitBreaker) (now : Rat) :
    CircuitState × CircuitBreaker :=
  if b.state_raw = .OPEN then
    match b.last_failure_time with
    | some t =>
      if b.timeout_seconds ≤ now - t then
        let b := b.transition_to .HALF_OPEN
        (b.state_raw, b)
      else (.OPEN, b)
    | none => (.OPEN, b)
  else (b.state_raw, b)

/-- `CircuitBreaker.record_success`. -/
def CircuitBreaker.record_success (b : CircuitBreaker) : CircuitBreaker :=
  if b.state_raw = .HALF_OPEN then
    let b := { b with success_count := b.success_count + 1 }
    if b.success_threshold ≤ b.success_count then b.transition_to .CLOSED
    else b
  else if b.state_raw = .CLOSED then
    { b with failure_count := 0 }
  else b

/-- `CircuitBreaker.record_failure` at clock instant `now`. -/
def CircuitBreaker.record_failure (b : CircuitBreaker) (now : Rat) :
    CircuitBreaker :=
  let b := { b with failure_count := b.failure_count + 1,
                    last_failure_time := some now }
  if b.state_raw = .HALF_OPEN then b.transition_to .OPEN
  else if b.state_raw = .CLOSED then
    if b.failure_threshold ≤ b.failure_count then b.transition_to .OPEN
    else b
  else b

/-- `CircuitBreaker.can_execute`, returning the answer and the breaker after
the `state` read (which may have flipped OPEN to HALF_OPEN). -/
def CircuitBreaker.can_execute (b : CircuitBreaker) (now : Rat) :
    Bool × CircuitBreaker :=
  let sb := b.state now
  (sb.1 = CircuitState.CLOSED || sb.1 = CircuitState.HALF_OPEN, sb.2)

/-- A fresh breaker (`CircuitBreaker(failure_threshold=ft, ...)`). -/
def CircuitBreaker.init (ft st : Nat) (tmo : Rat) : CircuitBreaker :=
  { failure_threshold := ft, success_threshold := st, timeout_seconds := tmo }

/-- `k` consecutive `record_failure` calls, the `i`-th at instant `f i`. -/
def applyFailures (b : CircuitBreaker) (f : Nat → Rat) : Nat → CircuitBreaker
  | 0 => b
  | k + 1 => (applyFailures b f k).record_failure (f k)

/-- `k` consecutive `record_success` calls. -/
def applySuccesses (b : CircuitBreaker) : Nat → CircuitBreaker
  | 0 => b
  | k + 1 => (applySuccesses b k).record_success

theorem applyFailures_spec (ft st : Nat) (tmo : Rat) (f : Nat → Rat)
    (hft : 1 ≤ ft) :
    ∀ k, k ≤ ft →
      applyFailures (CircuitBreaker.init ft st tmo) f k =
        { failure_threshold := ft, success_threshold := st,
          timeout_seconds := tmo,
          state_raw := if k < ft then .CLOSED else .OPEN,
          failure_count := k, success_count := 0,
          last_failure_time := if k = 0 then none else some (f (k - 1)) } := by
  intro k
  induction k with
  | zero =>
    intro _
    simp [applyFailures, CircuitBreaker.init, Nat.lt_of_lt_of_le Nat.zero_lt_one hft]
  | succ k ih =>
    intro hk
    have hklt : k < ft := Nat.lt_of_succ_le hk
    rw [applyFailures, ih (Nat.le_of_lt hklt)]
    simp only [CircuitBreaker.record_failure, CircuitBreaker.transition_to,
      if_pos hklt]
    by_cases hfull : ft ≤ k + 1
    · have h1 : ¬(k + 1 < ft) := by omega
      simp [hfull, h1]
    · have h1 : k + 1 < ft := by omega
      simp [hfull, h1]

theorem applySuccesses_spec (b : CircuitBreaker)
    (hstate : b.state_raw = .HALF_OPEN) (hsc : b.success_count = 0)
    (hst : 1 ≤ b.success_threshold) :
    ∀ k, k ≤ b.success_threshold →
      (applySuccesses b k).state_raw
          = (if k < b.success_threshold then CircuitState.HALF_OPEN
             else CircuitState.CLOSED) ∧
      (applySuccesses b k).success_count
          = (if k < b.success_threshold then k else 0) ∧
      (applySuccesses b k).success_threshold = b.success_threshold := by
  intro k
  induction k with
  | zero =>
    intro _
    simp [applySuccesses, hstate, hsc, Nat.lt_of_lt_of_le Nat.zero_lt_one hst]
  | succ k ih =>
    intro hk
    have hklt : k < b.success_threshold := Nat.lt_of_succ_le hk
    obtain ⟨ihs, ihc, iht⟩ := ih (Nat.le_of_lt hklt)
    rw [if_pos hklt] at ihs ihc
    rw [applySuccesses]
    simp only [CircuitBreaker.record_success, CircuitBreaker.transition_to,
      ihs, if_pos rfl]
    by_cases hfull : b.success_threshold ≤ k + 1
    · have h1 : ¬(k + 1 < b.success_threshold) := by omega
      simp [ihc, iht, hfull, h1]
    · have h1 : k + 1 < b.success_threshold := by omega
      simp [ihc, iht, hfull, h1]

/-- C3: starting from CLOSED, after `failure_threshold` consecutive
`record_failure` calls, `can_execute` returns false (leaving the breaker
unchanged) for every instant less than `timeout_seconds` after the last
failure; once `timeout_seconds` have elapsed, `can_execute` returns true and
the breaker is HALF_OPEN; from there, `success_threshold` consecutive
`record_success` calls reach CLOSED, while a single `record_failure`
immediately returns to OPEN. -/
theorem circuit_breaker_lifecycle (ft st : Nat) (tmo : Rat) (f : Nat → Rat)
    (hft : 1 ≤ ft) (hst : 1 ≤ st) :
    (∀ now : Rat, now - f (ft - 1) < tmo →
        ((applyFailures (CircuitBreaker.init ft st tmo) f ft).can_execute
            now).1 = false ∧
        ((applyFailures (CircuitBreaker.init ft st tmo) f ft).can_execute
            now).2 = applyFailures (CircuitBreaker.init ft st tmo) f ft) ∧
    (∀ now : Rat, tmo ≤ now - f (ft - 1) →
        ((applyFailures (CircuitBreaker.init ft st tmo) f ft).can_execute
            now).1 = true ∧
        ((applyFailures (CircuitBreaker.init ft st tmo) f ft).can_execute
            now).2.state_raw = .HALF_OPEN ∧
        (applySuccesses
            ((applyFailures (CircuitBreaker.init ft st tmo) f ft).can_execute
              now).2 st).state_raw = .CLOSED ∧
        ∀ t2 : Rat,
          (((applyFailures (CircuitBreaker.init ft st tmo) f ft).can_execute
              now).2.record_failure t2).state_raw = .OPEN) := by
  have hb1 : applyFailures (CircuitBreaker.init ft st tmo) f ft =
      { failure_threshold := ft, success_threshold := st,
        timeout_seconds := tmo, state_raw := .OPEN, failure_count := ft,
        success_count := 0, last_failure_time := some (f (ft - 1)) } := by
    rw [applyFailures_spec ft st tmo f hft ft le_rfl]
    have hne : ¬ft = 0 := by omega
    simp [lt_irrefl, hne]
  constructor
  · intro now hlt
    rw [hb1]
    simp [CircuitBreaker.can_execute, CircuitBreaker.state, not_le.mpr hlt]
  · intro now hle
    have hb2 : ((applyFailures (CircuitBreaker.init ft st tmo) f ft).can_execute
        now).2 =
        { failure_threshold := ft, success_threshold := st,
          timeout_seconds := tmo, state_raw := .HALF_OPEN,
          failure_count := ft, success_count := 0,
          last_failure_time := some (f (ft - 1)) } := by
      rw [hb1]
      simp [CircuitBreaker.can_execute, CircuitBreaker.state,
        CircuitBreaker.transition_to, hle]
    refine ⟨?_, ?_, ?_, ?_⟩
    · rw [hb1]
      simp [CircuitBreaker.can_execute, CircuitBreaker.state,
        CircuitBreaker.transition_to, hle]
    · rw [hb2]
    · rw [hb2]
      have := (applySuccesses_spec
        { failure_threshold := ft, success_threshold := st,
          timeout_seconds := tmo, state_raw := .HALF_OPEN,
          failure_count := ft, success_count := 0,
          last_failure_time := some (f (ft - 1)) } rfl rfl hst st le_rfl).1
      simpa [lt_irrefl] using this
    · intro t2
      rw [hb2]
      simp [CircuitBreaker.record_failure, CircuitBreaker.transition_to]

/-- Witness for `circuit_breaker_lifecycle`: thresholds 5/2, timeout 60,
failures at instants 0..4, queried at instant 70 (66 ≥ 60 elapsed). -/
theorem circuit_breaker_lifecycle_witness :
    ((60 : Rat) ≤ 70 - (fun i => (i : Rat)) (5 - 1)) ∧
    (((applyFailures (CircuitBreaker.init 5 2 60) (fun i => (i : Rat))
        5).can_execute 70).1 = true) ∧
    ((applySuccesses
        ((applyFailures (CircuitBreaker.init 5 2 60) (fun i => (i : Rat))
          5).can_execute 70).2 2).state_raw = .CLOSED) := by
  have h := (circuit_breaker_lifecycle 5 2 60 (fun i => (i : Rat))
    (by decide) (by decide)).2 70 (by norm_num)
  exact ⟨by norm_num, h.1, h.2.2.1⟩

/-! ## Resilience layer (`src/utils/resilience.py` and
`src/utils/http_client.py`)

`McpClient.send_message` is modelled as a function of: the optional
per-client `CircuitBreaker` of `resilience.py` (a distinct class from the
SHARED one, modelled as `ResCircuitBreaker`), the clock instant of the call,
and an oracle `f : Nat → AttemptOutcome` giving the outcome of the `i`-th
HTTP attempt.  `retry_with_backoff` is instantiated, as at this call site,
with `retryable_exceptions = (httpx.TimeoutException, httpx.ConnectError)`. -/

/-- The `CircuitBreaker` of `resilience.py` (no success threshold; strict
`>` in the reset-timeout check; `record_success` closes immediately). -/
structure ResCircuitBreaker where
  failure_threshold : Nat := 5
  reset_timeout : Rat := 30
  failure_count : Nat := 0
  last_failure_time : Option Rat := none
  state_raw : CircuitState := .CLOSED
deriving DecidableEq, Repr

/-- The `state` property: while OPEN, flip to HALF_OPEN once strictly more
than `reset_timeout` has elapsed since the last failure (`if
self._last_failure_time and ... >` — a missing timestamp skips the check;
`time.time()` is never falsy zero). -/
def ResCircuitBreaker.state (b : ResCircuitBreaker) (now : Rat) :
    CircuitState × ResCircuitBreaker :=
  if b.state_raw = .OPEN then
    match b.last_failure_time with
    | some t =>
      if b.reset_timeout < now - t then
        ({ b with state_raw := .HALF_OPEN }.state_raw,
          { b with state_raw := .HALF_OPEN })
      else (.OPEN, b)
    | none => (.OPEN, b)
  else (b.state_raw, b)

/-- `record_success`: reset the count and close. -/
def ResCircuitBreaker.record_success (b : ResCircuitBreaker) :
    ResCircuitBreaker :=
  { b with failure_count := 0, state_raw := .CLOSED }

/-- `record_failure` at instant `now`: bump the count, stamp the time, open
once the threshold is reached. -/
def ResCircuitBreaker.record_failure (b : ResCircuitBreaker) (now : Rat) :
    ResCircuitBreaker :=
  let b := { b with failure_count := b.failure_count + 1,
                    last_failure_time := some now }
  if b.failure_threshold ≤ b.failure_count then
    { b with state_raw := .OPEN }
  else b

/-- `is_open`, returning the answer and the breaker after the `state` read. -/
def ResCircuitBreaker.is_open (b : ResCircuitBreaker) (now : Rat) :
    Bool × ResCircuitBreaker :=
  let s := b.state now
  (s.1 = CircuitState.OPEN, s.2)

/-- Outcome of one HTTP attempt inside `_do_request`. -/
inductive AttemptOutcome where
  | ok                 -- 2xx response with a well-formed JSON body
  | timeoutExc         -- httpx.TimeoutException
  | connectErr         -- httpx.ConnectError
  | httpStatus (code : Nat)  -- raise_for_status: httpx.HTTPStatusError
  | malformedBody      -- response.json() raises json.JSONDecodeError
deriving DecidableEq, Repr

/-- Error surfaced by `send_message`. -/
inductive SendError where
  | breakerOpen              -- ConnectionError("Circuit breaker is open")
  | retryExhausted (last : AttemptOutcome)  -- RetryExhausted
  | httpError (code : Nat)   -- HTTPStatusError propagated unchanged
  | malformed                -- JSONDecodeError propagated unchanged
deriving DecidableEq, Repr

/-- Trace of a `retry_with_backoff` run: the surfaced result, the list of
back-off sleeps performed (in order), and the number of HTTP attempts. -/
structure RetryTrace where
  result : Except SendError Unit
  sleeps : List Rat
  attempts : Nat
deriving Repr

/-- The `for attempt in range(max_retries + 1)` loop of
`retry_with_backoff`, with `remaining` attempts still allowed (structural
fuel; the `0` case is the loop's unreachable fall-through `raise`).  Only
`TimeoutException`/`ConnectError` are retryable here; an `HTTPStatusError`
or a JSON decode error propagates out of the loop at once. -/
def retryGo (f : Nat → AttemptOutcome) (maxRetries : Nat) (backoff : Rat) :
    Nat → Nat → RetryTrace
  | attempt, 0 =>
    { result := .error (.retryExhausted (f attempt)), sleeps := [],
      attempts := 0 }
  | attempt, remaining + 1 =>
    match f attempt with
    | .ok => { result := .ok (), sleeps := [], attempts := 1 }
    | .timeoutExc =>
      if attempt < maxRetries then
        let r := retryGo f maxRetries backoff (attempt + 1) remaining
        { result := r.result,
          sleeps := backoff * 2 ^ attempt :: r.sleeps,
          attempts := r.attempts + 1 }
      else
        { result := .error (.retryExhausted .timeoutExc), sleeps := [],
          attempts := 1 }
    | .connectErr =>
      if attempt < maxRetries then
        let r := retryGo f maxRetries backoff (attempt + 1) remaining
        { result := r.result,
          sleeps := backoff * 2 ^ attempt :: r.sleeps,
          attempts := r.attempts + 1 }
      else
        { result := .error (.retryExhausted .connectErr), sleeps := [],
          attempts := 1 }
    | .httpStatus code =>
      { result := .error (.httpError code), sleeps := [], attempts := 1 }
    | .malformedBody =>
      { result := .error .malformed, sleeps := [], attempts := 1 }

/-- `retry_with_backoff(_do_request, max_retries=.., backoff_seconds=..,
retryable_exceptions=(TimeoutException, ConnectError))`. -/
def retry_with_backoff (f : Nat → AttemptOutcome) (maxRetries : Nat)
    (backoff : Rat) : RetryTrace :=
  retryGo f maxRetries backoff 0 (maxRetries + 1)

/-- Full result of `McpClient.send_message`: the retry trace plus the
breaker as left behind. -/
structure SendOutcome where
  result : Except SendError Unit
  sleeps : List Rat
  attempts : Nat
  breaker : Option ResCircuitBreaker
deriving Repr

/-- `McpClient.send_message`: fail fast when the breaker is open, otherwise
run the retry loop; on success `record_success`; a `RetryExhausted` or
`httpx.HTTPError` records a breaker failure and is re-raised; any other
exception (the JSON decode error) propagates without touching the breaker. -/
def send_message (breaker : Option ResCircuitBreaker) (now : Rat)
    (f : Nat → AttemptOutcome) (maxRetries : Nat) (backoff : Rat) :
    SendOutcome :=
  match breaker with
  | none =>
    let tr := retry_with_backoff f maxRetries backoff
    { result := tr.result, sleeps := tr.sleeps, attempts := tr.attempts,
      breaker := none }
  | some cb =>
    let gate := cb.is_open now
    if gate.1 then
      { result := .error .breakerOpen, sleeps := [], attempts := 0,
        breaker := some gate.2 }
    else
      let tr := retry_with_backoff f maxRetries backoff
      let cb2 : ResCircuitBreaker :=
        match tr.result with
        | .ok _ => gate.2.record_success
        | .error (.retryExhausted _) => gate.2.record_failure now
        | .error (.httpError _) => gate.2.record_failure now
        | .error _ => gate.2
      { result := tr.result, sleeps := tr.sleeps, attempts := tr.attempts,
        breaker := some cb2 }

theorem retryGo_transport (f : Nat → AttemptOutcome) (maxR : Nat) (bo : Rat)
    (h : ∀ i, i ≤ maxR → f i = .timeoutExc ∨ f i = .connectErr) :
    ∀ remaining attempt, 1 ≤ remaining → attempt + remaining = maxR + 1 →
      retryGo f maxR bo attempt remaining =
        { result := .error (.retryExhausted (f maxR)),
          sleeps := (List.range' attempt (remaining - 1)).map
            (fun i => bo * 2 ^ i),
          attempts := remaining } := by
  intro remaining
  induction remaining with
  | zero => intro attempt h1 _; exact absurd h1 (by omega)
  | succ rem ih =>
    intro attempt _ hsum
    have hatt : attempt ≤ maxR := by omega
    by_cases hrem : rem = 0
    · subst hrem
      have hm : attempt = maxR := by omega
      subst hm
      rcases h attempt hatt with ht | ht <;>
        simp [retryGo, ht, lt_irrefl]
    · have hlt : attempt < maxR := by omega
      have hih := ih (attempt + 1) (by omega) (by omega)
      have hrange : List.range' attempt rem =
          attempt :: List.range' (attempt + 1) (rem - 1) := by
        conv_lhs => rw [show rem = (rem - 1) + 1 by omega]
        rw [List.range'_succ]
      rcases h attempt hatt with ht | ht <;>
        simp [retryGo, ht, hlt, hih, hrange]

theorem retryGo_attempts_pos (f : Nat → AttemptOutcome) (maxR : Nat)
    (bo : Rat) (attempt rem : Nat) (h : 1 ≤ rem) :
    1 ≤ (retryGo f maxR bo attempt rem).attempts := by
  cases rem with
  | zero => exact absurd h (by omega)
  | succ rem =>
    cases hf : f attempt <;> simp [retryGo, hf] <;> split_ifs <;> simp

/-- Counterexample to C4 as stated: a 5xx-equivalent server failure is NOT
retried.  With `max_retries = 3` and every attempt answering HTTP 500, the
claim asks for 4 attempts with back-off sleeps; the code makes exactly one
attempt, sleeps never, and surfaces the status error (the `raise_for_status`
exception is not in `retryable_exceptions`), while still recording a breaker
failure. -/
theorem send_message_5xx_not_retried :
    (send_message (some ({} : ResCircuitBreaker)) 0
        (fun _ => .httpStatus 500) 3 2).attempts = 1 ∧
    (send_message (some ({} : ResCircuitBreaker)) 0
        (fun _ => .httpStatus 500) 3 2).sleeps = [] ∧
    (send_message (some ({} : ResCircuitBreaker)) 0
        (fun _ => .httpStatus 500) 3 2).result
      = .error (.httpError 500) ∧
    (send_message (some ({} : ResCircuitBreaker)) 0
        (fun _ => .httpStatus 500) 3 2).breaker
      = some (ResCircuitBreaker.record_failure {} 0) :=
  ⟨rfl, rfl, rfl, rfl⟩

/-- C4 (amended): with the breaker CLOSED, only transport-level failures
(timeout, connect error) are retried — up to `max_retries` times with sleeps
`backoff * 2^attempt` — and exhaustion records one breaker failure; an HTTP
status failure (4xx and 5xx alike) is surfaced immediately with no retry and
records a breaker failure; a malformed response body is surfaced immediately
with no retry and does not touch the breaker. -/
theorem send_message_retry_policy (cb : ResCircuitBreaker) (now : Rat)
    (f : Nat → AttemptOutcome) (maxR : Nat) (bo : Rat)
    (hclosed : cb.state_raw = .CLOSED) :
    ((∀ i, i ≤ maxR → f i = .timeoutExc ∨ f i = .connectErr) →
      (send_message (some cb) now f maxR bo).attempts = maxR + 1 ∧
      (send_message (some cb) now f maxR bo).sleeps
        = (List.range maxR).map (fun i => bo * 2 ^ i) ∧
      (send_message (some cb) now f maxR bo).result
        = .error (.retryExhausted (f maxR)) ∧
      (send_message (some cb) now f maxR bo).breaker
        = some (cb.record_failure now)) ∧
    (∀ code, f 0 = .httpStatus code →
      (send_message (some cb) now f maxR bo).attempts = 1 ∧
      (send_message (some cb) now f maxR bo).sleeps = [] ∧
      (send_message (some cb) now f maxR bo).result
        = .error (.httpError code) ∧
      (send_message (some cb) now f maxR bo).breaker
        = some (cb.record_failure now)) ∧
    (f 0 = .malformedBody →
      (send_message (some cb) now f maxR bo).attempts = 1 ∧
      (send_message (some cb) now f maxR bo).sleeps = [] ∧
      (send_message (some cb) now f maxR bo).result = .error .malformed ∧
      (send_message (some cb) now f maxR bo).breaker = some cb) := by
  have hgate : cb.is_open now = (false, cb) := by
    simp [ResCircuitBreaker.is_open, ResCircuitBreaker.state, hclosed]
  refine ⟨?_, ?_, ?_⟩
  · intro htr
    have hr : retry_with_backoff f maxR bo =
        { result := .error (.retryExhausted (f maxR)),
          sleeps := (List.range' 0 maxR).map (fun i => bo * 2 ^ i),
          attempts := maxR + 1 } := by
      rw [retry_with_backoff,
        retryGo_transport f maxR bo htr (maxR + 1) 0 (by omega) (by omega)]
      simp
    refine ⟨?_, ?_, ?_, ?_⟩ <;>
      simp [send_message, hgate, hr, List.range_eq_range']
  · intro code hf0
    have hr : retry_with_backoff f maxR bo =
        { result := .error (.httpError code), sleeps := [],
          attempts := 1 } := by
      simp [retry_with_backoff, retryGo, hf0]
    refine ⟨?_, ?_, ?_, ?_⟩ <;> simp [send_message, hgate, hr]
  · intro hf0
    have hr : retry_with_backoff f maxR bo =
        { result := .error .malformed, sleeps := [], attempts := 1 } := by
      simp [retry_with_backoff, retryGo, hf0]
    refine ⟨?_, ?_, ?_, ?_⟩ <;> simp [send_message, hgate, hr]

/-- Witness for `send_message_retry_policy`: every attempt times out with
`max_retries = 2`, so 3 attempts run and the sleeps are `2*2^0, 2*2^1`. -/
theorem send_message_retry_policy_witness :
    (({} : ResCircuitBreaker).state_raw = .CLOSED) ∧
    (send_message (some ({} : ResCircuitBreaker)) 0
        (fun _ => .timeoutExc) 2 2).attempts = 2 + 1 ∧
    (send_message (some ({} : ResCircuitBreaker)) 0
        (fun _ => .timeoutExc) 2 2).sleeps
      = (List.range 2).map (fun i => (2 : Rat) * 2 ^ i) := by
  have h := (send_message_retry_policy {} 0 (fun _ => .timeoutExc) 2 2
    rfl).1 (fun i _ => Or.inl rfl)
  exact ⟨rfl, h.1, h.2.1⟩

/-- C8: when the per-destination breaker is OPEN and the reset timeout since
the last failure has not elapsed, `send_message` fails immediately with the
distinct breaker-open error, makes zero HTTP attempts, and leaves the
breaker untouched; once the timeout has elapsed the `is_open` gate flips the
breaker to HALF_OPEN, reports it not open, and the call proceeds (at least
one attempt is made). -/
theorem send_message_breaker_open_gate (cb : ResCircuitBreaker)
    (now t : Rat) (f : Nat → AttemptOutcome) (maxR : Nat) (bo : Rat)
    (hopen : cb.state_raw = .OPEN) (hlast : cb.last_failure_time = some t) :
    (now - t ≤ cb.reset_timeout →
      (send_message (some cb) now f maxR bo).result
          = .error .breakerOpen ∧
      (send_message (some cb) now f maxR bo).attempts = 0 ∧
      (send_message (some cb) now f maxR bo).breaker = some cb) ∧
    (cb.reset_timeout < now - t →
      (cb.is_open now).1 = false ∧
      (cb.is_open now).2.state_raw = .HALF_OPEN ∧
      1 ≤ (send_message (some cb) now f maxR bo).attempts) := by
  constructor
  · intro hle
    have hgate : cb.is_open now = (true, cb) := by
      simp [ResCircuitBreaker.is_open, ResCircuitBreaker.state, hopen,
        hlast, not_lt.mpr hle]
    refine ⟨?_, ?_, ?_⟩ <;> simp [send_message, hgate]
  · intro hgt
    have hgate : cb.is_open now =
        (false, { cb with state_raw := .HALF_OPEN }) := by
      simp [ResCircuitBreaker.is_open, ResCircuitBreaker.state, hopen,
        hlast, hgt]
    refine ⟨by rw [hgate], by rw [hgate], ?_⟩
    have hpos := retryGo_attempts_pos f maxR bo 0 (maxR + 1) (by omega)
    simp [send_message, hgate, retry_with_backoff]
    exact hpos

/-- Breaker used by the fail-fast witness: opened at instant 0. -/
def openBreakerDemo : ResCircuitBreaker :=
  { state_raw := .OPEN, last_failure_time := some 0 }

/-- Witness for `send_message_breaker_open_gate`: breaker opened at instant
0 (reset timeout 30), called again at instant 10 — fail-fast with zero
attempts. -/
theorem send_message_breaker_open_gate_witness :
    ((10 : Rat) - 0 ≤ openBreakerDemo.reset_timeout) ∧
    (send_message (some openBreakerDemo) 10
        (fun _ => .ok) 3 2).result = .error .breakerOpen ∧
    (send_message (some openBreakerDemo) 10
        (fun _ => .ok) 3 2).attempts = 0 := by
  have h := (send_message_breaker_open_gate openBreakerDemo
    10 0 (fun _ => .ok) 3 2 rfl rfl).1 (by norm_num [openBreakerDemo])
  exact ⟨by norm_num [openBreakerDemo], h.1, h.2.1⟩

/-! ## Match orchestrator (`agents/referee_template/game_logic.py`)

`conduct_match` is modelled as a function of the observable interaction
state when the two waiting windows expire: the per-side join flags after the
join window, the per-side collected choices after the choice window, and the
drawn number used at settlement.  Timeouts are value-level branches, not
exceptions: the function is total. -/

/-- The result dict returned by `conduct_match`.  A technical-loss result
carries the reason in `error` and no winner/drawn number; a settled result
carries the outcome fields. -/
structure ConductResult where
  match_id : String
  round_id : String
  error : Option String
  player_a_result : GameResult
  player_b_result : GameResult
  winner_id : Option String
  drawn_number : Option Int
deriving DecidableEq, Repr

/-- `GameOrchestrator._technical_loss_result`: both sides get
`TECHNICAL_LOSS`, whatever the reason. -/
def technical_loss_result (match_id round_id reason : String) :
    ConductResult :=
  { match_id := match_id, round_id := round_id, error := some reason,
    player_a_result := .TECHNICAL_LOSS, player_b_result := .TECHNICAL_LOSS,
    winner_id := none, drawn_number := none }

/-- `GameOrchestrator.conduct_match`: join window missed → technical loss
(`join_timeout`); any missing choice → technical loss (`choice_timeout`);
otherwise settle via `determine_match_outcome`. -/
def conduct_match (match_id round_id player_a_id player_b_id : String)
    (player_a_joined player_b_joined : Bool)
    (player_a_choice player_b_choice : Option Parity)
    (drawn : Int) : ConductResult :=
  if player_a_joined && player_b_joined then
    match player_a_choice, player_b_choice with
    | some ca, some cb =>
      let o := determine_match_outcome player_a_id ca player_b_id cb drawn
      { match_id := match_id, round_id := round_id, error := none,
        player_a_result := o.player_a_result,
        player_b_result := o.player_b_result,
        winner_id := o.winner_id, drawn_number := some o.drawn_number }
    | _, _ => technical_loss_result match_id round_id "choice_timeout"
  else technical_loss_result match_id round_id "join_timeout"

/-- C5: when a match ends by join timeout or choice timeout (either side —
or both — failing to respond), `conduct_match` returns a terminal result
marking BOTH sides `TECHNICAL_LOSS` uniformly, with the timeout reason in
the `error` field; the timeout is a returned value, never an exception
(`conduct_match` is a total function). -/
theorem conduct_match_timeout_both_technical
    (mid rid aId bId : String) (aj bj : Bool)
    (ac bc : Option Parity) (n : Int)
    (h : ¬(aj = true ∧ bj = true) ∨ ac = none ∨ bc = none) :
    (conduct_match mid rid aId bId aj bj ac bc n).player_a_result
        = .TECHNICAL_LOSS ∧
    (conduct_match mid rid aId bId aj bj ac bc n).player_b_result
        = .TECHNICAL_LOSS ∧
    ((conduct_match mid rid aId bId aj bj ac bc n).error
        = some "join_timeout" ∨
      (conduct_match mid rid aId bId aj bj ac bc n).error
        = some "choice_timeout") := by
  by_cases hj : aj = true ∧ bj = true
  · rcases h with h | h | h
    · exact absurd hj h
    · cases bc <;>
        simp [conduct_match, hj.1, hj.2, h, technical_loss_result]
    · cases ac <;>
        simp [conduct_match, hj.1, hj.2, h, technical_loss_result]
  · have : ¬(aj && bj) = true := by
      intro hb
      exact hj (by constructor <;> [exact (Bool.and_eq_true aj bj ▸ hb).1;
        exact (Bool.and_eq_true aj bj ▸ hb).2])
    simp [conduct_match, this, technical_loss_result]

/-- Witness for `conduct_match_timeout_both_technical`: side B never joins —
both sides are still recorded `TECHNICAL_LOSS`. -/
theorem conduct_match_timeout_both_technical_witness :
    (¬((true : Bool) = true ∧ (false : Bool) = true)) ∧
    (conduct_match "M1" "R1" "P01" "P02" true false (some .even)
        (some .odd) 4).player_a_result = .TECHNICAL_LOSS ∧
    (conduct_match "M1" "R1" "P01" "P02" true false (some .even)
        (some .odd) 4).player_b_result = .TECHNICAL_LOSS := by
  have h := conduct_match_timeout_both_technical "M1" "R1" "P01" "P02"
    true false (some .even) (some .odd) 4 (Or.inl (by simp))
  exact ⟨by simp, h.1, h.2.1⟩

/-! ## Message envelope (`src/protocol/envelope.py`)

Strings are handled at the `List Char` level.  `datetime.fromisoformat` is
modelled (`isoParse`) on the extended ISO-8601 shapes every supported
CPython (≥ 3.7) accepts: `YYYY-MM-DD<sep>HH[:MM[:SS[.frac]]][±HH:MM[:SS]]`
with any single separator character and calendar/range checks (leap years
included).  The parser's exact accept set is version-dependent (3.11 adds
colon-free "basic" and week-date forms, and relaxes fraction lengths), so
the validator is defined over an abstract parse oracle
(`validate_utc_timestamp_par`) and the rejection characterization is proved
for every oracle; `isoParse` instantiates it for concrete evaluation. -/

/-- `s.endswith(suffix)`. -/
def endsWithL (l suffix : List Char) : Bool :=
  decide (suffix.length ≤ l.length) &&
    (l.drop (l.length - suffix.length) == suffix)

/-- `v.replace("Z", "+00:00")` (a single-character needle, so a char-wise
pass). -/
def replaceZ : List Char → List Char
  | [] => []
  | c :: l =>
    if c = 'Z' then '+' :: '0' :: '0' :: ':' :: '0' :: '0' :: replaceZ l
    else c :: replaceZ l

/-- Numeric value of a digit character. -/
def digitVal (c : Char) : Nat := c.toNat - 48

/-- Read exactly `k` digit characters into a decimal value. -/
def readDigitsAux (acc : Nat) : Nat → List Char → Option (Nat × List Char)
  | 0, l => some (acc, l)
  | k + 1, [] => none
  | k + 1, c :: l =>
    if c.isDigit then readDigitsAux (10 * acc + digitVal c) k l else none

/-- Read exactly `k` digits. -/
def readDigits (k : Nat) (l : List Char) : Option (Nat × List Char) :=
  readDigitsAux 0 k l

/-- Consume one expected character. -/
def expectChar (c : Char) : List Char → Option (List Char)
  | [] => none
  | x :: l => if x = c then some l else none

/-- Gregorian leap year. -/
def isLeapYear (y : Nat) : Bool :=
  y % 4 = 0 && (y % 100 ≠ 0 || y % 400 = 0)

/-- Days in a month. -/
def daysInMonth (y m : Nat) : Nat :=
  if m = 2 then (if isLeapYear y then 29 else 28)
  else if m = 4 ∨ m = 6 ∨ m = 9 ∨ m = 11 then 30
  else 31

/-- Optional fractional-seconds part: `.` or `,` followed by at least one
digit (consumed greedily). -/
def parseFrac : List Char → Option (List Char)
  | [] => some []
  | c :: l2 =>
    if c = '.' ∨ c = ',' then
      match l2.takeWhile Char.isDigit with
      | [] => none
      | _ :: _ => some (l2.dropWhile Char.isDigit)
    else some (c :: l2)

/-- Optional UTC-offset tail: empty, or `±HH:MM[:SS]` ending the string. -/
def parseOffset (l : List Char) : Bool :=
  match l with
  | [] => true
  | c :: l =>
    if c = '+' ∨ c = '-' then
      (do
        let (oh, l) ← readDigits 2 l
        let l ← expectChar ':' l
        let (om, l) ← readDigits 2 l
        let tail ←
          match l with
          | [] => some true
          | c2 :: l2 =>
            if c2 = ':' then do
              let (os, l3) ← readDigits 2 l2
              if l3 = [] then some (decide (os ≤ 59)) else none
            else none
        pure (decide (oh ≤ 23) && decide (om ≤ 59) && tail)).getD false
    else false

/-- The `datetime.fromisoformat` model (see the section comment): returns
whether the string parses as an (extended-format) ISO-8601 datetime.
Minutes and seconds are optional (`HH`, `HH:MM` and `HH:MM:SS[.frac]` are
all accepted, as on every CPython ≥ 3.7); a fraction may only follow
seconds. -/
def isoParse (l : List Char) : Bool :=
  (do
    let (y, l) ← readDigits 4 l
    let l ← expectChar '-' l
    let (mo, l) ← readDigits 2 l
    let l ← expectChar '-' l
    let (d, l) ← readDigits 2 l
    match l with
    | [] => some false
    | _sep :: l => do
      let (h, l) ← readDigits 2 l
      let (mi, s, l) ←
        match l with
        | ':' :: l2 => do
          let (mi, l3) ← readDigits 2 l2
          match l3 with
          | ':' :: l4 => do
            let (s, l5) ← readDigits 2 l4
            let l6 ← parseFrac l5
            pure (mi, s, l6)
          | _ => pure (mi, 0, l3)
        | _ => pure (0, 0, l)
      pure (decide (1 ≤ y) && decide (1 ≤ mo) && decide (mo ≤ 12) &&
        decide (1 ≤ d) && decide (d ≤ daysInMonth y mo) &&
        decide (h ≤ 23) && decide (mi ≤ 59) && decide (s ≤ 59) &&
        parseOffset l)).getD false

/-- `MessageEnvelope.validate_utc_timestamp`, with the ISO-8601 parser left
abstract: reject unless the string ends in `Z` or `+00:00`, then require the
parse oracle `isoOk` (`datetime.fromisoformat` of the deployed Python, whose
exact accept set is version-dependent) to succeed on the string with every
`Z` replaced by `+00:00`. -/
def validate_utc_timestamp_par (isoOk : List Char → Bool) (v : String) :
    Bool :=
  let l := v.data
  (endsWithL l ['Z'] || endsWithL l ['+', '0', '0', ':', '0', '0']) &&
    (if endsWithL l ['Z'] then isoOk (replaceZ l) else isoOk l)

/-- `MessageEnvelope.validate_utc_timestamp` with the concrete
`fromisoformat` model plugged in. -/
def validate_utc_timestamp (v : String) : Bool :=
  validate_utc_timestamp_par isoParse v

/-- First-colon split: `v.split(":", 1)`, `none` when `":" not in v`. -/
def splitFirstColon : List Char → Option (List Char × List Char)
  | [] => none
  | c :: l =>
    if c = ':' then some ([], l)
    else
      match splitFirstColon l with
      | some (a, b) => some (c :: a, b)
      | none => none

/-- `MessageEnvelope.validate_sender_format`: the reserved coordinator
identity `league_manager` passes; otherwise the sender must contain a colon
and the part before the first colon must be `player` or `referee`. -/
def validate_sender_format (v : String) : Bool :=
  if v = "league_manager" then true
  else
    match splitFirstColon v.data with
    | none => false
    | some (t, _) => String.mk t == "player" || String.mk t == "referee"

/-- The envelope's required fields, as validated strings (pydantic already
guarantees presence and string-ness of the required fields; optional fields
play no part in validation). -/
structure RawEnvelope where
  protocol : String := "league.v2"
  message_type : String
  sender : String
  timestamp : String
  conversation_id : String
  auth_token : Option String := none
deriving DecidableEq, Repr

/-- Construction-time validation of `MessageEnvelope`, generic in the
ISO-8601 parse oracle: the two field validators.  No validator constrains
`protocol` — `Field(frozen=True)` only forbids later mutation, not a
differing construction value. -/
def validateEnvelope_par (isoOk : List Char → Bool) (e : RawEnvelope) :
    Bool :=
  validate_utc_timestamp_par isoOk e.timestamp &&
    validate_sender_format e.sender

/-- Construction-time validation with the concrete `fromisoformat` model. -/
def validateEnvelope (e : RawEnvelope) : Bool :=
  validateEnvelope_par isoParse e

/-- A UTC wall-clock instant as `datetime.now(timezone.utc)` components. -/
structure UTCTime where
  year : Nat
  month : Nat
  day : Nat
  hour : Nat
  minute : Nat
  second : Nat
deriving DecidableEq, Repr

/-- Calendar validity of a clock reading.  Years below 1000 are excluded
because the platform `strftime("%Y")` does not zero-pad them (any actual
wall clock reads a four-digit year). -/
def ValidUTCTime (t : UTCTime) : Prop :=
  1000 ≤ t.year ∧ t.year ≤ 9999 ∧ 1 ≤ t.month ∧ t.month ≤ 12 ∧
  1 ≤ t.day ∧ t.day ≤ daysInMonth t.year t.month ∧
  t.hour ≤ 23 ∧ t.minute ≤ 59 ∧ t.second ≤ 59

instance (t : UTCTime) : Decidable (ValidUTCTime t) := by
  unfold ValidUTCTime
  infer_instance

/-- The decimal digit character for `n`. -/
def digitChar (n : Nat) : Char := Char.ofNat (48 + n)

/-- Two-digit zero-padded field (`%m`, `%d`, `%H`, `%M`, `%S`). -/
def pad2 (n : Nat) : List Char := [digitChar (n / 10), digitChar (n % 10)]

/-- Four-digit year field (`%Y`; equals the plain decimal digits for years
1000–9999). -/
def pad4 (n : Nat) : List Char :=
  [digitChar (n / 1000), digitChar (n / 100 % 10), digitChar (n / 10 % 10),
    digitChar (n % 10)]

/-- The characters of `strftime("%Y-%m-%dT%H:%M:%S")`. -/
def tsBody (t : UTCTime) : List Char :=
  pad4 t.year ++ '-' :: pad2 t.month ++ '-' :: pad2 t.day ++
    'T' :: pad2 t.hour ++ ':' :: pad2 t.minute ++ ':' :: pad2 t.second

/-- `get_utc_timestamp`: `strftime("%Y-%m-%dT%H:%M:%SZ")` of `now`. -/
def get_utc_timestamp (t : UTCTime) : String :=
  String.mk (tsBody t ++ ['Z'])

/-- `create_envelope`: stamp the current UTC time, protocol `league.v2`
(the generated-or-given conversation id is passed in resolved). -/
def create_envelope (message_type sender : String) (t : UTCTime)
    (conversation_id : String) (auth_token : Option String) : RawEnvelope :=
  { protocol := "league.v2", message_type := message_type, sender := sender,
    timestamp := get_utc_timestamp t,
    conversation_id := conversation_id, auth_token := auth_token }

theorem digitChar_isDigit {k : Nat} (hk : k ≤ 9) :
    (digitChar k).isDigit = true := by
  interval_cases k <;> decide

theorem digitVal_digitChar {k : Nat} (hk : k ≤ 9) :
    digitVal (digitChar k) = k := by
  interval_cases k <;> decide

theorem digitChar_ne_Z {k : Nat} (hk : k ≤ 9) : digitChar k ≠ 'Z' := by
  interval_cases k <;> decide

theorem readDigitsAux_pad2 (acc n : Nat) (hn : n ≤ 99) (rest : List Char) :
    readDigitsAux acc 2 (pad2 n ++ rest) = some (100 * acc + n, rest) := by
  have h1 : n / 10 ≤ 9 := by omega
  have h2 : n % 10 ≤ 9 := by omega
  simp [pad2, readDigitsAux, digitChar_isDigit h1, digitChar_isDigit h2,
    digitVal_digitChar h1, digitVal_digitChar h2]
  omega

theorem readDigits_pad2 (n : Nat) (hn : n ≤ 99) (rest : List Char) :
    readDigits 2 (pad2 n ++ rest) = some (n, rest) := by
  have := readDigitsAux_pad2 0 n hn rest
  simpa [readDigits] using this

theorem readDigits_pad4 (n : Nat) (hn : n ≤ 9999) (rest : List Char) :
    readDigits 4 (pad4 n ++ rest) = some (n, rest) := by
  have h1 : n / 1000 ≤ 9 := by omega
  have h2 : n / 100 % 10 ≤ 9 := by omega
  have h3 : n / 10 % 10 ≤ 9 := by omega
  have h4 : n % 10 ≤ 9 := by omega
  simp [readDigits, pad4, readDigitsAux, digitChar_isDigit h1,
    digitChar_isDigit h2, digitChar_isDigit h3, digitChar_isDigit h4,
    digitVal_digitChar h1, digitVal_digitChar h2, digitVal_digitChar h3,
    digitVal_digitChar h4]
  omega

theorem replaceZ_append (a b : List Char) :
    replaceZ (a ++ b) = replaceZ a ++ replaceZ b := by
  induction a with
  | nil => rfl
  | cons c l ih =>
    by_cases hc : c = 'Z' <;> simp [replaceZ, hc, ih]

theorem replaceZ_of_no_Z {l : List Char} (h : ∀ c ∈ l, c ≠ 'Z') :
    replaceZ l = l := by
  induction l with
  | nil => rfl
  | cons c l ih =>
    have hc := h c (List.mem_cons_self c l)
    simp [replaceZ, hc, ih (fun x hx => h x (List.mem_cons_of_mem _ hx))]

theorem pad2_no_Z {n : Nat} (hn : n ≤ 99) : ∀ c ∈ pad2 n, c ≠ 'Z' := by
  intro c hc
  rcases List.mem_cons.mp hc with rfl | hc
  · exact digitChar_ne_Z (by omega)
  · rcases List.mem_singleton.mp hc with rfl
    exact digitChar_ne_Z (by omega)

theorem pad4_no_Z {n : Nat} (hn : n ≤ 9999) : ∀ c ∈ pad4 n, c ≠ 'Z' := by
  intro c hc
  simp only [pad4, List.mem_cons, List.mem_singleton] at hc
  rcases hc with rfl | rfl | rfl | rfl | h
  · exact digitChar_ne_Z (by omega)
  · exact digitChar_ne_Z (by omega)
  · exact digitChar_ne_Z (by omega)
  · exact digitChar_ne_Z (by omega)
  · exact absurd h (List.not_mem_nil c)

theorem tsBody_no_Z {t : UTCTime} (ht : ValidUTCTime t) :
    ∀ c ∈ tsBody t, c ≠ 'Z' := by
  obtain ⟨h1, h2, h3, h4, h5, h6, h7, h8, h9⟩ := ht
  have hdm : daysInMonth t.year t.month ≤ 31 := by
    unfold daysInMonth
    split_ifs <;> omega
  simp only [tsBody]
  refine List.forall_mem_append.mpr ⟨?_,
    List.forall_mem_cons.mpr ⟨by decide, pad2_no_Z (by omega)⟩⟩
  refine List.forall_mem_append.mpr ⟨?_,
    List.forall_mem_cons.mpr ⟨by decide, pad2_no_Z (by omega)⟩⟩
  refine List.forall_mem_append.mpr ⟨?_,
    List.forall_mem_cons.mpr ⟨by decide, pad2_no_Z (by omega)⟩⟩
  refine List.forall_mem_append.mpr ⟨?_,
    List.forall_mem_cons.mpr ⟨by decide, pad2_no_Z (by omega)⟩⟩
  refine List.forall_mem_append.mpr ⟨?_,
    List.forall_mem_cons.mpr ⟨by decide, pad2_no_Z (by omega)⟩⟩
  exact pad4_no_Z h2

theorem endsWithL_concat (l : List Char) (c : Char) :
    endsWithL (l ++ [c]) [c] = true := by
  simp [endsWithL, List.length_append]

set_option maxHeartbeats 2000000 in
theorem isoParse_canonical (y mo d h mi s : Nat) (hy : y ≤ 9999)
    (hmo : mo ≤ 99) (hd : d ≤ 99) (hh : h ≤ 99) (hmi : mi ≤ 99)
    (hs : s ≤ 99) :
    isoParse (pad4 y ++ ('-' :: (pad2 mo ++ ('-' :: (pad2 d ++
        ('T' :: (pad2 h ++ (':' :: (pad2 mi ++ (':' :: (pad2 s ++
          ['+', '0', '0', ':', '0', '0']))))))))))) =
      (decide (1 ≤ y) && decide (1 ≤ mo) && decide (mo ≤ 12) &&
        decide (1 ≤ d) && decide (d ≤ daysInMonth y mo) &&
        decide (h ≤ 23) && decide (mi ≤ 59) && decide (s ≤ 59)) := by
  have hfrac : parseFrac ['+', '0', '0', ':', '0', '0']
      = some ['+', '0', '0', ':', '0', '0'] := by decide
  have hoff : parseOffset ['+', '0', '0', ':', '0', '0'] = true := by decide
  simp [isoParse, readDigits_pad4 y hy, readDigits_pad2 mo hmo,
    readDigits_pad2 d hd, readDigits_pad2 h hh, readDigits_pad2 mi hmi,
    readDigits_pad2 s hs, expectChar, hfrac, hoff]

/-- C9: build/validate round-trip — for every message kind, every clock
reading, and every sender accepted by the sender validator, the envelope
produced by `create_envelope` passes envelope validation; in particular the
stamped timestamp always ends in `Z` and parses as an ISO-8601 UTC
instant. -/
theorem create_envelope_validates (t : UTCTime) (ht : ValidUTCTime t)
    (mt sender conv : String) (tok : Option String)
    (hs : validate_sender_format sender = true) :
    endsWithL (get_utc_timestamp t).toList ['Z'] = true ∧
    validate_utc_timestamp (get_utc_timestamp t) = true ∧
    validateEnvelope (create_envelope mt sender t conv tok) = true := by
  obtain ⟨h1, h2, h3, h4, h5, h6, h7, h8, h9⟩ := ht
  have hdm : daysInMonth t.year t.month ≤ 31 := by
    unfold daysInMonth
    split_ifs <;> omega
  have htl : (get_utc_timestamp t).toList = tsBody t ++ ['Z'] := rfl
  have hrep : replaceZ (tsBody t ++ ['Z']) =
      tsBody t ++ ['+', '0', '0', ':', '0', '0'] := by
    rw [replaceZ_append,
      replaceZ_of_no_Z (tsBody_no_Z ⟨h1, h2, h3, h4, h5, h6, h7, h8, h9⟩)]
    rfl
  have hparse : isoParse (replaceZ (tsBody t ++ ['Z'])) = true := by
    rw [hrep]
    have hcan := isoParse_canonical t.year t.month t.day t.hour t.minute
      t.second h2 (by omega) (by omega) (by omega) (by omega) (by omega)
    simp only [tsBody, List.append_assoc, List.cons_append]
    rw [hcan]
    simp [h4, h6, h7, h8, h9, show 1 ≤ t.year by omega, h3, h5]
  have htl2 : (get_utc_timestamp t).data = tsBody t ++ ['Z'] := rfl
  have hvt : validate_utc_timestamp (get_utc_timestamp t) = true := by
    simp [validate_utc_timestamp, validate_utc_timestamp_par, htl, htl2,
      endsWithL_concat, hparse]
  have hvt2 : validate_utc_timestamp_par isoParse (get_utc_timestamp t)
      = true := hvt
  refine ⟨by rw [htl]; exact endsWithL_concat _ _, hvt, ?_⟩
  simp [validateEnvelope, validateEnvelope_par, create_envelope, hvt2, hs]

/-- Witness for `create_envelope_validates`: sender `player:P01` at
2025-01-15T10:30:00 UTC. -/
theorem create_envelope_validates_witness :
    ValidUTCTime ⟨2025, 1, 15, 10, 30, 0⟩ ∧
    validate_sender_format "player:P01" = true ∧
    validateEnvelope (create_envelope "GAME_INVITATION" "player:P01"
      ⟨2025, 1, 15, 10, 30, 0⟩ "conv-1" none) = true := by
  refine ⟨by decide, by decide, ?_⟩
  exact (create_envelope_validates ⟨2025, 1, 15, 10, 30, 0⟩ (by decide)
    "GAME_INVITATION" "player:P01" "conv-1" none (by decide)).2.2

/-- The counterexample envelope for the protocol-tag check: every field
valid except a protocol tag that differs from `league.v2`. -/
def bogusProtocolEnvelope : RawEnvelope :=
  { protocol := "league.v999", message_type := "GAME_INVITATION",
    sender := "player:P01", timestamp := "2025-01-15T10:30:00Z",
    conversation_id := "conv-1" }

/-- Counterexample to C7 as stated: a raw message whose protocol tag differs
from the single supported value is NOT rejected — no pydantic validator
constrains `protocol` (`frozen=True` only forbids mutation after
construction), so `bogusProtocolEnvelope` passes validation. -/
theorem envelope_protocol_not_checked :
    bogusProtocolEnvelope.protocol ≠ "league.v2" ∧
    validateEnvelope bogusProtocolEnvelope = true := by
  exact ⟨by decide, by decide⟩

theorem validate_sender_format_false_iff (v : String) :
    validate_sender_format v = false ↔
      (v ≠ "league_manager" ∧
        (splitFirstColon v.data = none ∨
          ∃ t rest, splitFirstColon v.data = some (t, rest) ∧
            String.mk t ≠ "player" ∧ String.mk t ≠ "referee")) := by
  unfold validate_sender_format
  by_cases hlm : v = "league_manager"
  · simp [hlm]
  · rcases hsplit : splitFirstColon v.data with _ | ⟨t, rest⟩ <;>
      simp [hlm, hsplit]

theorem validate_utc_timestamp_par_false_iff (isoOk : List Char → Bool)
    (v : String) :
    validate_utc_timestamp_par isoOk v = false ↔
      ((¬endsWithL v.data ['Z'] = true ∧
        ¬endsWithL v.data ['+', '0', '0', ':', '0', '0'] = true) ∨
       (endsWithL v.data ['Z'] = true ∧
        isoOk (replaceZ v.data) = false) ∨
       (¬endsWithL v.data ['Z'] = true ∧
        endsWithL v.data ['+', '0', '0', ':', '0', '0'] = true ∧
        isoOk v.data = false)) := by
  unfold validate_utc_timestamp_par
  by_cases hZ : endsWithL v.data ['Z'] = true <;>
    by_cases hO : endsWithL v.data ['+', '0', '0', ':', '0', '0'] = true <;>
      simp [hZ, hO]

/-- C7 (amended): for EVERY ISO-8601 parse oracle `isoOk` (standing for the
deployed Python's `datetime.fromisoformat`, whose exact accept set varies
across CPython versions), envelope validation rejects a raw message exactly
when the timestamp is bad (not `Z`/`+00:00`-suffixed, or the `Z`-replaced
string fails the parse) or the sender is bad (neither the reserved
coordinator identity `league_manager`, nor containing a colon with the part
before the first colon in the closed role set {player, referee}).  The
protocol tag plays no part in validation (see
`envelope_protocol_not_checked`). -/
theorem validateEnvelope_reject_iff (isoOk : List Char → Bool)
    (e : RawEnvelope) :
    (validateEnvelope_par isoOk e = false ↔
      (validate_utc_timestamp_par isoOk e.timestamp = false ∨
        (e.sender ≠ "league_manager" ∧
          (splitFirstColon e.sender.data = none ∨
            ∃ t rest, splitFirstColon e.sender.data = some (t, rest) ∧
              String.mk t ≠ "player" ∧ String.mk t ≠ "referee")))) ∧
    (validate_utc_timestamp_par isoOk e.timestamp = false ↔
      ((¬endsWithL e.timestamp.data ['Z'] = true ∧
        ¬endsWithL e.timestamp.data ['+', '0', '0', ':', '0', '0'] = true) ∨
       (endsWithL e.timestamp.data ['Z'] = true ∧
        isoOk (replaceZ e.timestamp.data) = false) ∨
       (¬endsWithL e.timestamp.data ['Z'] = true ∧
        endsWithL e.timestamp.data ['+', '0', '0', ':', '0', '0'] = true ∧
        isoOk e.timestamp.data = false))) := by
  refine ⟨?_, validate_utc_timestamp_par_false_iff isoOk e.timestamp⟩
  rw [← validate_sender_format_false_iff]
  unfold validateEnvelope_par
  cases hts : validate_utc_timestamp_par isoOk e.timestamp <;>
    cases hsf : validate_sender_format e.sender <;> simp [hts, hsf]
